import Mathlib

/-!
Verification of the Sudoku rule engine (`storopoli/sudoku`).

The development shallowly embeds the pure helper functions of
`src/utils.rs` and the event handlers of the board components of
`src/components/board.rs` (digit-entry, undo, hint, new-game buttons),
and proves or refutes the specified properties about them.

A Sudoku grid (`SudokuState`, `[u8; 81]` in the source) is modelled as a
`List Nat`; every theorem that depends on the fixed size carries an
explicit `length = 81` hypothesis.  Rust expressions that can panic
(array indexing out of bounds, `expect` on `Option`) are modelled with
`Option`: a `none` result of an event-handler function marks a panic of
the original code.
-/

namespace Sudoku

/-- `SudokuState` from `src/app.rs`: the 81 cell values of a board
(`[u8; 81]` in the source), row-major.  `0` is an empty cell. -/
abbrev SudokuState := List Nat

/-- Ascending insertion of a value into a list, the building block used
to model Rust's `sort_unstable` on a `Vec<u8>`. -/
def insertSorted (x : Nat) : List Nat → List Nat
  | [] => [x]
  | y :: ys => if x ≤ y then x :: y :: ys else y :: insertSorted x ys

/-- Model of `Vec::sort_unstable` for `Vec<u8>`: sorts ascending. -/
def sortNat : List Nat → List Nat
  | [] => []
  | x :: xs => insertSorted x (sortNat xs)

/-- Model of `Vec::dedup`: removes consecutive repeated elements. -/
def dedupAdj : List Nat → List Nat
  | [] => []
  | [x] => [x]
  | x :: y :: r => if x = y then dedupAdj (y :: r) else x :: dedupAdj (y :: r)

/-- `get_related_cells` from `src/utils.rs` (lines 111–141): row peers,
column peers and 3×3-box peers of `index`, sorted, deduplicated
(`sort_unstable` then `dedup`), with the cell itself removed
(`retain(|&x| x != index)`). -/
def get_related_cells (index : Nat) : List Nat :=
  let row := index / 9
  let col := index % 9
  let start_row := row / 3 * 3
  let start_col := col / 3 * 3
  let rowCells := (List.range 9).map (fun i => row * 9 + i)
  let colCells := (List.range 9).map (fun i => i * 9 + col)
  let boxCells :=
    (List.range 3).flatMap (fun i =>
      (List.range 3).map (fun j => (start_row + i) * 9 + (start_col + j)))
  (dedupAdj (sortNat (rowCells ++ colCells ++ boxCells))).filter
    (fun x => x ≠ index)

/-- `get_conflicting_cells` from `src/utils.rs` (lines 176–193): empty if
the cell is empty, otherwise the related cells holding the same value.
The source indexes `board[i]`; every call site has `i < 81` on an
81-cell board, so total `getD` indexing coincides with the source. -/
def get_conflicting_cells (board : SudokuState) (index : Nat) : List Nat :=
  let value := board.getD index 0
  if value = 0 then []
  else (get_related_cells index).filter (fun j => board.getD j 0 = value)

/-- The `filled` list built by `get_all_conflicting_cells`
(`src/utils.rs` lines 248–258): indices of the non-zero cells, in order
(`iter().enumerate().filter_map`). -/
def filledCells (g : SudokuState) : List Nat :=
  (List.range g.length).filter (fun i => g.getD i 0 ≠ 0)

/-- `get_all_conflicting_cells` from `src/utils.rs` (lines 247–271):
conflicts of every filled cell, flattened, sorted (`sort_unstable`) and
deduplicated (`dedup`). -/
def get_all_conflicting_cells (current_sudoku : SudokuState) : List Nat :=
  dedupAdj (sortNat
    ((filledCells current_sudoku).flatMap
      (fun v => get_conflicting_cells current_sudoku v)))

/-- Recursion core of `find_changed_cell`: lockstep walk with the
running index of the `enumerate`d `zip`. -/
def findChangedAux : Nat → List Nat → List Nat → Option Nat
  | _, [], _ => none
  | _, _ :: _, [] => none
  | k, a :: as1, b :: bs1 =>
    if a ≠ b then some k else findChangedAux (k + 1) as1 bs1

/-- `find_changed_cell` from `src/utils.rs` (lines 228–235): the first
index at which the two boards differ, `none` if the zipped walk finds no
difference. -/
def find_changed_cell (previous current : SudokuState) : Option Nat :=
  findChangedAux 0 previous current

/-- Modelled from the spec: `remove_conflicting_cells` is imported by
`src/components/board.rs` from `crate::utils` but its body is not among
the available sources.  Per §4.4 step 1 of the spec, every conflicting
cell has its value reset to `0` (freed). -/
def remove_conflicting_cells (g : SudokuState) (cells : List Nat) : SudokuState :=
  cells.foldl (fun acc i => acc.set i 0) g

/-- Modelled from the spec: `get_hint` is imported by
`src/components/board.rs` from `crate::utils` but its body is not among
the available sources.  Per §4.4 of the spec: if no cell is at `0` the
hint is a no-op (step 3); otherwise the externally supplied solver is
consulted (`solve`, §6) and the lowest-index empty cell is set to the
solution's value there (step 2); if the solver cannot produce a
solution, the failure is reported (`Except.error`) rather than guessing
a value. -/
def get_hint (solve : SudokuState → Option SudokuState)
    (g : SudokuState) : Except Unit SudokuState :=
  match (List.range g.length).find? (fun i => g.getD i 0 = 0) with
  | none => .ok g
  | some i =>
    match solve g with
    | none => .error ()
    | some sol => .ok (g.set i (sol.getD i 0))

/-- The shared state of one puzzle session, the signals provided in
`src/app.rs` and `src/components/board.rs`: `InitialSudokuPuzzle`,
`SudokuPuzzleMoves`, `SudokuPuzzle`, `Clicked`, `Mutable`, `Related`,
`Conflicting`. -/
structure GameState where
  initial : SudokuState
  moves : List SudokuState
  sudoku : SudokuState
  clicked : Nat
  mutFlag : Bool
  related : List Nat
  conflicting : List Nat
deriving DecidableEq, Repr

/-- The state provided by `App` (`src/app.rs`) and `SudokuBoard`
(`src/components/board.rs` lines 325–330) when a session starts:
history `[initial]`, current grid `initial`, `Clicked(90)` sentinel,
`Mutable(false)`, empty related and conflicting sets. -/
def startState (npz : SudokuState) : GameState :=
  { initial := npz, moves := [npz], sudoku := npz,
    clicked := 90, mutFlag := false, related := [], conflicting := [] }

/-- Modelled from the spec: the cell-click handler lives in the `Cell`
component imported by `src/components/board.rs`, whose source is not
among the available files.  Per §4.5 `selectCell(index)` records the
Selection — the clicked index, whether that cell is free in the initial
puzzle (`mutable`, cf. `board.rs` line 354), and its related set — and
does not mutate the grid. -/
def selectCell (s : GameState) (i : Nat) : GameState :=
  { s with clicked := i,
           mutFlag := s.initial.getD i 0 = 0,
           related := get_related_cells i }

/-- The `onclick` handler of `NumberButton`
(`src/components/board.rs` lines 119–134).  `none` marks a panic of the
source: `sudoku.read().0[clicked as usize]` is an out-of-bounds array
access when `clicked` is not below 81. -/
def numberClick (s : GameState) (number : Nat) : Option GameState :=
  match s.sudoku.get? s.clicked with
  | none => none
  | some v =>
    if v = number then
      some s
    else if s.mutFlag then
      let newSudoku := s.sudoku.set s.clicked number
      some { s with
        sudoku := newSudoku,
        moves := s.moves ++ [newSudoku],
        conflicting := get_all_conflicting_cells newSudoku }
    else
      some s

/-- The `onclick` handler of `UndoButton`
(`src/components/board.rs` lines 197–227).  `current` is the last
history entry captured at render time; `none` marks a panic of one of
the source's `expect` calls (empty history, or no changed cell between
the popped and the revealed grid). -/
def undoClick (s : GameState) : Option GameState :=
  match s.moves.getLast? with
  | none => none
  | some current =>
    if current = s.initial then
      some s
    else
      match (s.moves.dropLast).getLast? with
      | none => none
      | some newSudoku =>
        match find_changed_cell current newSudoku with
        | none => none
        | some lastClicked =>
          some { s with
            moves := s.moves.dropLast,
            sudoku := newSudoku,
            clicked := lastClicked,
            related := get_related_cells lastClicked,
            conflicting := get_all_conflicting_cells newSudoku }

/-- The conflict-cleanup block of the `HintButton` `onclick` handler
(`src/components/board.rs` lines 261–277): when the conflict signal is
non-empty, all conflicting cells of the current grid (the last history
entry, captured at render time) are freed, the cleaned grid is pushed
onto the history and becomes the current grid, and the conflict signal
is cleared. -/
def hintCleanup (s : GameState) (current : SudokuState) : GameState :=
  if s.conflicting ≠ [] then
    let cur := remove_conflicting_cells current
      (get_all_conflicting_cells current)
    { s with moves := s.moves ++ [cur], conflicting := [], sudoku := cur }
  else s

/-- The hint block of the `HintButton` `onclick` handler
(`src/components/board.rs` lines 279–305): obtain a hint (retrying on a
cleaned grid on failure, panicking — `none` — if that fails too), and
if the current grid still has an empty cell, adopt the hinted grid,
push it, and refresh selection, related and conflicting state. -/
def hintApply (solve : SudokuState → Option SudokuState)
    (s1 : GameState) : Option GameState :=
  let newSudoku? :=
    match get_hint solve s1.sudoku with
    | .ok ns => some ns
    | .error _ =>
      let cur := remove_conflicting_cells s1.sudoku
        (get_all_conflicting_cells s1.sudoku)
      match get_hint solve cur with
      | .ok ns => some ns
      | .error _ => none
  match newSudoku? with
  | none => none
  | some newSudoku =>
    if s1.sudoku.any (fun v => v = 0) then
      match find_changed_cell s1.sudoku newSudoku with
      | none => none
      | some lastClicked =>
        some { s1 with
          sudoku := newSudoku,
          moves := s1.moves ++ [newSudoku],
          clicked := lastClicked,
          related := get_related_cells lastClicked,
          conflicting := get_all_conflicting_cells newSudoku }
    else
      some s1

/-- The `onclick` handler of `HintButton`
(`src/components/board.rs` lines 256–306): conflict cleanup followed by
the hint application, with the last history entry captured at render
time (`none` marks a panic of one of the source's `expect` calls). -/
def hintClick (solve : SudokuState → Option SudokuState)
    (s : GameState) : Option GameState :=
  match s.moves.getLast? with
  | none => none
  | some current => hintApply solve (hintCleanup s current)

/-- The `onclick` handler of `NewButton`
(`src/components/board.rs` lines 158–171), with the freshly generated
puzzle (`create_sudoku()`) passed as `npz`. -/
def newClick (_s : GameState) (npz : SudokuState) : GameState :=
  { initial := npz, moves := [npz], sudoku := npz,
    clicked := 90, mutFlag := true, related := [], conflicting := [] }

/-- The session states reachable from a fresh session by any sequence of
cell selections, digit entries, undos, hints and new games.  Generated
puzzles are 81 cells long (`[u8; 81]`); steps that would panic
(`none` results) do not produce a state. -/
inductive Reachable (solve : SudokuState → Option SudokuState) : GameState → Prop
  | start (npz : SudokuState) (h : npz.length = 81) :
      Reachable solve (startState npz)
  | select (s : GameState) (i : Nat) (hi : i < 81) :
      Reachable solve s → Reachable solve (selectCell s i)
  | enter (s : GameState) (n : Nat) (s' : GameState) :
      Reachable solve s → numberClick s n = some s' → Reachable solve s'
  | undo (s s' : GameState) :
      Reachable solve s → undoClick s = some s' → Reachable solve s'
  | hint (s s' : GameState) :
      Reachable solve s → hintClick solve s = some s' → Reachable solve s'
  | new (s : GameState) (npz : SudokuState) (h : npz.length = 81) :
      Reachable solve s → Reachable solve (newClick s npz)

/-! ### Concrete boards and session states used as test inputs -/

/-- The all-empty 81-cell board. -/
def g0 : SudokuState := List.replicate 81 0

/-- `g0` with a 3 written at index 5. -/
def g1 : SudokuState := g0.set 5 3

/-- A complete, rule-valid board (each row a cyclic shift). -/
def solvedGrid : SudokuState :=
  [1, 2, 3, 4, 5, 6, 7, 8, 9,
   4, 5, 6, 7, 8, 9, 1, 2, 3,
   7, 8, 9, 1, 2, 3, 4, 5, 6,
   2, 3, 4, 5, 6, 7, 8, 9, 1,
   5, 6, 7, 8, 9, 1, 2, 3, 4,
   8, 9, 1, 2, 3, 4, 5, 6, 7,
   3, 4, 5, 6, 7, 8, 9, 1, 2,
   6, 7, 8, 9, 1, 2, 3, 4, 5,
   9, 1, 2, 3, 4, 5, 6, 7, 8]

/-- A solver stub for the hint engine: always answers `solvedGrid`. -/
def solveConst (_g : SudokuState) : Option SudokuState := some solvedGrid

/-- Session state reached from `startState g0` by selecting cell 5,
entering 3 and entering 0: the history has returned to the initial
grid while holding three entries. -/
def stC4 : GameState :=
  { initial := g0, moves := [g0, g1, g0], sudoku := g1.set 5 0,
    clicked := 5, mutFlag := true, related := get_related_cells 5,
    conflicting := [] }

/-- Session state reached from `startState g0` by selecting cell 5 and
entering 3: history `[g0, g1]`, a digit entry of 0 away from `stC4`. -/
def stC5 : GameState :=
  { initial := g0, moves := [g0, g1], sudoku := g1,
    clicked := 5, mutFlag := true, related := get_related_cells 5,
    conflicting := [] }

/-- `solvedGrid` corrupted at cell 0 (set to 2): complete (no zeros) but
in conflict with cells 1 and 27. -/
def corruptedGrid : SudokuState := solvedGrid.set 0 2

/-- A session state holding the complete-but-conflicting
`corruptedGrid`, with the conflict signal in sync. -/
def stC9 : GameState :=
  { initial := g0, moves := [g0, corruptedGrid], sudoku := corruptedGrid,
    clicked := 0, mutFlag := true, related := get_related_cells 0,
    conflicting := get_all_conflicting_cells corruptedGrid }

/-- A session state holding the complete, conflict-free `solvedGrid`. -/
def stC9ok : GameState :=
  { initial := g0, moves := [g0, solvedGrid], sudoku := solvedGrid,
    clicked := 0, mutFlag := true, related := [], conflicting := [] }

/-- `startState g0` after the cell-click on cell 0. -/
def stSel0 : GameState := selectCell (startState g0) 0

/-- `stSel0` after entering digit 1 (cell 0 becomes 1). -/
def stEnt1 : GameState := (numberClick stSel0 1).getD stSel0

/-- `stEnt1` after the cell-click on cell 1. -/
def stSel1 : GameState := selectCell stEnt1 1

/-- `stSel1` after entering digit 1 (cell 1 becomes 1, conflicting with
cell 0). -/
def stEnt2 : GameState := (numberClick stSel1 1).getD stSel1

/-- `stEnt2` after a hint click: the conflict cleanup frees cells 0 and
1 in one history entry, then the hint fills cell 0. -/
def stC6 : GameState := (hintClick solveConst stEnt2).getD stEnt2

/-- The invariant of a puzzle session's shared state: the history is
non-empty, starts at the initial puzzle, ends at the current grid,
holds only 81-cell grids with pairwise-distinct consecutive entries,
and a non-empty conflict signal agrees with the conflict set of the
current grid. -/
structure HistoryInv (s : GameState) : Prop where
  nonempty : s.moves ≠ []
  head_initial : s.moves.head? = some s.initial
  last_sudoku : s.moves.getLast? = some s.sudoku
  lengths : ∀ g ∈ s.moves, g.length = 81
  distinct : List.Chain' (fun a b => a ≠ b) s.moves
  conflictSync : s.conflicting ≠ [] →
    s.conflicting = get_all_conflicting_cells s.sudoku

end Sudoku

namespace Sudoku

-- Sanity checks on concrete inputs, mirroring the unit tests of
-- `src/utils.rs`.

example : (get_related_cells 40).length = 20 := by decide

example : (get_related_cells 0).length = 20 := by decide

example :
    get_conflicting_cells
      ([1, 2, 3, 4, 5, 6, 7, 8, 1] ++ List.replicate 72 0) 0 = [8] := by
  decide

example :
    find_changed_cell (List.replicate 81 0)
      ((List.replicate 81 0).set 42 1) = some 42 := by decide

example :
    get_all_conflicting_cells
      ([1, 0, 0, 0, 0, 0, 0, 0, 1] ++ List.replicate 72 0) = [0, 8] := by
  decide

/-! ### Lemmas about the sorting and deduplication helpers -/

theorem mem_insertSorted {a x : Nat} {l : List Nat} :
    a ∈ insertSorted x l ↔ a = x ∨ a ∈ l := by
  induction l with
  | nil => simp [insertSorted]
  | cons y ys ih =>
    by_cases h : x ≤ y
    · simp [insertSorted, h]
    · simp only [insertSorted, if_neg h, List.mem_cons, ih]
      tauto

theorem mem_sortNat {a : Nat} {l : List Nat} :
    a ∈ sortNat l ↔ a ∈ l := by
  induction l with
  | nil => simp [sortNat]
  | cons x xs ih => simp [sortNat, mem_insertSorted, ih]

theorem mem_dedupAdj {a : Nat} {l : List Nat} :
    a ∈ dedupAdj l ↔ a ∈ l := by
  induction l with
  | nil => simp [dedupAdj]
  | cons x xs ih =>
    cases xs with
    | nil => simp [dedupAdj]
    | cons y ys =>
      by_cases h : x = y
      · subst h
        simp only [dedupAdj, if_pos rfl, List.mem_cons] at ih ⊢
        tauto
      · simp only [dedupAdj, if_neg h, List.mem_cons] at ih ⊢
        tauto

theorem sorted_insertSorted {x : Nat} {l : List Nat}
    (h : List.Sorted (· ≤ ·) l) :
    List.Sorted (· ≤ ·) (insertSorted x l) := by
  induction l with
  | nil => simp [insertSorted]
  | cons y ys ih =>
    rw [List.sorted_cons] at h
    by_cases hxy : x ≤ y
    · rw [insertSorted, if_pos hxy, List.sorted_cons]
      refine ⟨fun b hb => ?_, List.sorted_cons.mpr h⟩
      rcases List.mem_cons.mp hb with rfl | hb
      · exact hxy
      · exact le_trans hxy (h.1 b hb)
    · rw [insertSorted, if_neg hxy, List.sorted_cons]
      refine ⟨fun b hb => ?_, ih h.2⟩
      rcases mem_insertSorted.mp hb with rfl | hb
      · exact le_of_not_le hxy
      · exact h.1 b hb

theorem sorted_sortNat (l : List Nat) :
    List.Sorted (· ≤ ·) (sortNat l) := by
  induction l with
  | nil => simp [sortNat]
  | cons x xs ih => exact sorted_insertSorted ih

theorem sorted_lt_dedupAdj {l : List Nat}
    (h : List.Sorted (· ≤ ·) l) :
    List.Sorted (· < ·) (dedupAdj l) := by
  induction l with
  | nil => simp [dedupAdj]
  | cons x xs ih =>
    cases xs with
    | nil => simp [dedupAdj]
    | cons y ys =>
      rw [List.sorted_cons] at h
      by_cases hxy : x = y
      · subst hxy
        rw [dedupAdj, if_pos rfl]
        exact ih h.2
      · rw [dedupAdj, if_neg hxy, List.sorted_cons]
        refine ⟨fun b hb => ?_, ih h.2⟩
        have hxle : x ≤ y := h.1 y (List.mem_cons_self y ys)
        have hxlt : x < y := lt_of_le_of_ne hxle hxy
        rcases List.mem_cons.mp (mem_dedupAdj.mp hb) with rfl | hb
        · exact hxlt
        · exact lt_of_lt_of_le hxlt ((List.sorted_cons.mp h.2).1 b hb)

/-! ### Facts about `get_related_cells`, checked by evaluation over all
81 indices -/

set_option maxRecDepth 10000 in
theorem related_length_notMem :
    ∀ i < 81, (get_related_cells i).length = 20 ∧ i ∉ get_related_cells i := by
  decide

set_option maxRecDepth 10000 in
theorem related_lt (i : Nat) (hi : i < 81) :
    ∀ j ∈ get_related_cells i, j < 81 := by
  revert i hi
  have h : ∀ i < 81, ∀ j ∈ get_related_cells i, j < 81 := by decide
  exact h

set_option maxRecDepth 100000 in
set_option maxHeartbeats 4000000 in
theorem related_symm :
    ∀ i < 81, ∀ j < 81,
      (j ∈ get_related_cells i ↔ i ∈ get_related_cells j) := by
  decide

set_option maxRecDepth 10000 in
theorem related_sorted :
    ∀ i < 81, List.Sorted (· < ·) (get_related_cells i) := by
  decide

/-! ### Membership characterizations of the conflict detectors -/

theorem mem_get_conflicting_cells {g : SudokuState} {i j : Nat} :
    j ∈ get_conflicting_cells g i ↔
      g.getD i 0 ≠ 0 ∧ j ∈ get_related_cells i ∧ g.getD j 0 = g.getD i 0 := by
  unfold get_conflicting_cells
  by_cases h : g.getD i 0 = 0
  · simp [h]
  · simp [h, List.mem_filter]

theorem mem_filledCells {g : SudokuState} {c : Nat} :
    c ∈ filledCells g ↔ c < g.length ∧ g.getD c 0 ≠ 0 := by
  unfold filledCells
  simp [List.mem_filter, List.mem_range]

theorem mem_get_all_conflicting_cells {g : SudokuState} {j : Nat} :
    j ∈ get_all_conflicting_cells g ↔
      ∃ c, (c < g.length ∧ g.getD c 0 ≠ 0) ∧ j ∈ get_conflicting_cells g c := by
  unfold get_all_conflicting_cells
  rw [mem_dedupAdj, mem_sortNat, List.mem_flatMap]
  constructor
  · rintro ⟨c, hc, hj⟩
    exact ⟨c, mem_filledCells.mp hc, hj⟩
  · rintro ⟨c, hc, hj⟩
    exact ⟨c, mem_filledCells.mpr hc, hj⟩

theorem sorted_get_all_conflicting_cells (g : SudokuState) :
    List.Sorted (· < ·) (get_all_conflicting_cells g) :=
  sorted_lt_dedupAdj (sorted_sortNat _)

/-! ### Claim theorems: pure functions -/

/-- C2.  For every index `i` in `0..=80`, `get_related_cells i` has
exactly 20 entries (row, column and box peers, deduplicated) and `i`
itself is not among them. -/
theorem C2_related_cells_card_irrefl (i : Nat) (hi : i ≤ 80) :
    (get_related_cells i).length = 20 ∧ i ∉ get_related_cells i :=
  related_length_notMem i (by omega)

theorem C2_witness :
    (get_related_cells 40).length = 20 ∧ 40 ∉ get_related_cells 40 :=
  C2_related_cells_card_irrefl 40 (by decide)

/-- C3.  For every 81-cell grid and every index `i` in `0..=80`:
`get_conflicting_cells` returns the empty set when the cell's value is
`0`, otherwise exactly the related cells of `i` whose value equals the
value at `i`; and `i` itself is never in the result. -/
theorem C3_conflicts_characterization (g : SudokuState) (hg : g.length = 81)
    (i : Nat) (hi : i ≤ 80) :
    (g.getD i 0 = 0 → get_conflicting_cells g i = []) ∧
    (∀ j, j ∈ get_conflicting_cells g i ↔
      g.getD i 0 ≠ 0 ∧ j ∈ get_related_cells i ∧ g.getD j 0 = g.getD i 0) ∧
    i ∉ get_conflicting_cells g i := by
  refine ⟨fun h0 => ?_, fun j => mem_get_conflicting_cells, fun hmem => ?_⟩
  · simp only [get_conflicting_cells]
    rw [if_pos h0]
  · exact (related_length_notMem i (by omega)).2
      (mem_get_conflicting_cells.mp hmem).2.1

theorem C3_witness :
    (let g : SudokuState := [1, 2, 3, 4, 5, 6, 7, 8, 1] ++ List.replicate 72 0
     (g.getD 0 0 = 0 → get_conflicting_cells g 0 = []) ∧
     (∀ j, j ∈ get_conflicting_cells g 0 ↔
       g.getD 0 0 ≠ 0 ∧ j ∈ get_related_cells 0 ∧ g.getD j 0 = g.getD 0 0) ∧
     0 ∉ get_conflicting_cells g 0) :=
  C3_conflicts_characterization _ (by decide) 0 (by decide)

/-- C8.  Conflict membership is symmetric on 81-cell grids, and whenever
`j` conflicts with `i`, both `i` and `j` are in the whole-grid conflict
set computed by `get_all_conflicting_cells`. -/
theorem C8_conflict_symmetry (g : SudokuState) (hg : g.length = 81)
    (i j : Nat) (hi : i ≤ 80) (hj : j ≤ 80) :
    (j ∈ get_conflicting_cells g i ↔ i ∈ get_conflicting_cells g j) ∧
    (j ∈ get_conflicting_cells g i →
      i ∈ get_all_conflicting_cells g ∧ j ∈ get_all_conflicting_cells g) := by
  have hsym : j ∈ get_conflicting_cells g i ↔ i ∈ get_conflicting_cells g j := by
    rw [mem_get_conflicting_cells, mem_get_conflicting_cells]
    constructor
    · rintro ⟨hv, hrel, heq⟩
      exact ⟨by rw [heq]; exact hv,
        (related_symm i (by omega) j (by omega)).mp hrel, heq.symm⟩
    · rintro ⟨hv, hrel, heq⟩
      exact ⟨by rw [heq]; exact hv,
        (related_symm j (by omega) i (by omega)).mp hrel, heq.symm⟩
  refine ⟨hsym, fun hmem => ?_⟩
  have hmem' := mem_get_conflicting_cells.mp hmem
  have hjv : g.getD j 0 ≠ 0 := by
    rw [hmem'.2.2]; exact hmem'.1
  constructor
  · exact mem_get_all_conflicting_cells.mpr
      ⟨j, ⟨by omega, hjv⟩, hsym.mp hmem⟩
  · exact mem_get_all_conflicting_cells.mpr
      ⟨i, ⟨by omega, hmem'.1⟩, hmem⟩

theorem C8_witness :
    (let g : SudokuState := [1, 2, 3, 4, 5, 6, 7, 8, 1] ++ List.replicate 72 0
     ((8 ∈ get_conflicting_cells g 0 ↔ 0 ∈ get_conflicting_cells g 8) ∧
      (8 ∈ get_conflicting_cells g 0 →
        0 ∈ get_all_conflicting_cells g ∧ 8 ∈ get_all_conflicting_cells g))) :=
  C8_conflict_symmetry _ (by decide) 0 8 (by decide) (by decide)

/-- C10.  `get_related_cells` (on valid indices) and
`get_all_conflicting_cells` (on every grid) return strictly increasing,
hence duplicate-free, lists. -/
theorem C10_sorted_nodup :
    (∀ i, i ≤ 80 →
      List.Sorted (· < ·) (get_related_cells i) ∧
        (get_related_cells i).Nodup) ∧
    (∀ g : SudokuState,
      List.Sorted (· < ·) (get_all_conflicting_cells g) ∧
        (get_all_conflicting_cells g).Nodup) := by
  constructor
  · intro i hi
    have h := related_sorted i (by omega)
    exact ⟨h, h.imp fun hab => Nat.ne_of_lt hab⟩
  · intro g
    have h := sorted_get_all_conflicting_cells g
    exact ⟨h, h.imp fun hab => Nat.ne_of_lt hab⟩

theorem C10_witness :
    (List.Sorted (· < ·) (get_related_cells 40) ∧
      (get_related_cells 40).Nodup) ∧
    (List.Sorted (· < ·)
        (get_all_conflicting_cells
          ([1, 0, 0, 0, 0, 0, 0, 0, 1] ++ List.replicate 72 0)) ∧
      (get_all_conflicting_cells
          ([1, 0, 0, 0, 0, 0, 0, 0, 1] ++ List.replicate 72 0)).Nodup) :=
  ⟨C10_sorted_nodup.1 40 (by decide), C10_sorted_nodup.2 _⟩

/-! ### Lemmas about `find_changed_cell` -/

theorem findChangedAux_none_iff :
    ∀ (p c : List Nat), p.length = c.length → ∀ k,
      (findChangedAux k p c = none ↔ p = c) := by
  intro p
  induction p with
  | nil =>
    intro c hlen k
    cases c with
    | nil => simp [findChangedAux]
    | cons b bs => simp at hlen
  | cons a as ih =>
    intro c hlen k
    cases c with
    | nil => simp at hlen
    | cons b bs =>
      by_cases hab : a = b
      · subst hab
        rw [findChangedAux, if_neg (by simp)]
        rw [ih bs (by simpa using hlen) (k + 1)]
        simp
      · rw [findChangedAux, if_pos (by simpa using hab)]
        simp [hab]

theorem find_changed_cell_none_iff {p c : List Nat}
    (hlen : p.length = c.length) :
    (find_changed_cell p c = none ↔ p = c) :=
  findChangedAux_none_iff p c hlen 0

theorem findChangedAux_some :
    ∀ (p c : List Nat) (k m : Nat), findChangedAux k p c = some m →
      k ≤ m ∧ p.getD (m - k) 0 ≠ c.getD (m - k) 0 ∧
        ∀ d < m - k, p.getD d 0 = c.getD d 0 := by
  intro p
  induction p with
  | nil => intro c k m h; simp [findChangedAux] at h
  | cons a as ih =>
    intro c k m h
    cases c with
    | nil => simp [findChangedAux] at h
    | cons b bs =>
      by_cases hab : a = b
      · subst hab
        rw [findChangedAux, if_neg (by simp)] at h
        obtain ⟨hkm, hne, hlt⟩ := ih bs (k + 1) m h
        refine ⟨by omega, ?_, ?_⟩
        · have : m - k = (m - (k + 1)) + 1 := by omega
          rw [this, List.getD_cons_succ, List.getD_cons_succ]
          exact hne
        · intro d hd
          cases d with
          | zero => simp
          | succ d' =>
            rw [List.getD_cons_succ, List.getD_cons_succ]
            exact hlt d' (by omega)
      · rw [findChangedAux, if_pos (by simpa using hab)] at h
        obtain rfl : k = m := by simpa using h
        refine ⟨le_refl k, ?_, ?_⟩
        · simpa using hab
        · intro d hd; omega

theorem findChangedAux_set :
    ∀ (g : List Nat) (k i v : Nat), i < g.length → g.getD i 0 ≠ v →
      findChangedAux k (g.set i v) g = some (k + i) := by
  intro g
  induction g with
  | nil => intro k i v hi; simp at hi
  | cons a as ih =>
    intro k i v hi hne
    cases i with
    | zero =>
      simp only [List.getD_cons_zero] at hne
      rw [List.set_cons_zero, findChangedAux,
        if_pos (by simpa using fun h => hne h.symm)]
      simp
    | succ i' =>
      rw [List.set_cons_succ, findChangedAux, if_neg (by simp)]
      have := ih (k + 1) i' v (by simpa using hi)
        (by simpa using hne)
      rw [this]
      congr 1
      omega

theorem find_changed_cell_set {g : List Nat} {i v : Nat}
    (hi : i < g.length) (hne : g.getD i 0 ≠ v) :
    find_changed_cell (g.set i v) g = some i := by
  have := findChangedAux_set g 0 i v hi hne
  simpa [find_changed_cell] using this

/-- C7.  On same-length (81-cell) grids, `find_changed_cell` returns
`none` exactly when the grids are identical; otherwise it returns the
first (lowest) index at which they differ. -/
theorem C7_find_changed_cell_spec (p c : SudokuState)
    (hp : p.length = 81) (hc : c.length = 81) :
    (find_changed_cell p c = none ↔ p = c) ∧
    (∀ i, find_changed_cell p c = some i →
      p.getD i 0 ≠ c.getD i 0 ∧ ∀ j < i, p.getD j 0 = c.getD j 0) := by
  refine ⟨find_changed_cell_none_iff (by omega), fun i h => ?_⟩
  obtain ⟨-, hne, hlt⟩ := findChangedAux_some p c 0 i h
  simp only [Nat.sub_zero] at hne hlt
  exact ⟨hne, hlt⟩

theorem C7_witness :
    (find_changed_cell (List.replicate 81 0) ((List.replicate 81 0).set 42 1)
        = none ↔ List.replicate 81 0 = (List.replicate 81 0).set 42 1) ∧
    (∀ i,
      find_changed_cell (List.replicate 81 0) ((List.replicate 81 0).set 42 1)
          = some i →
        (List.replicate 81 0).getD i 0 ≠
            ((List.replicate 81 0).set 42 1).getD i 0 ∧
          ∀ j < i, (List.replicate 81 0).getD j 0 =
            ((List.replicate 81 0).set 42 1).getD j 0) :=
  C7_find_changed_cell_spec _ _ (by decide) (by simp)

/-! ### Helper lemmas about list histories -/

theorem head?_dropLast_of_two_le {α : Type} {l : List α} (h : 2 ≤ l.length) :
    l.dropLast.head? = l.head? := by
  match l with
  | [] => simp at h
  | [a] => simp at h
  | a :: b :: t => rw [List.dropLast_cons₂]; rfl

theorem chain_rel_last_two {α : Type} {r : α → α → Prop} {l : List α}
    {a b : α} (hc : List.Chain' r l) (ha : l.dropLast.getLast? = some a)
    (hb : l.getLast? = some b) : r a b := by
  have hdec := List.dropLast_append_getLast? b hb
  rw [← hdec] at hc
  obtain ⟨-, -, h⟩ := List.chain'_append.mp hc
  exact h a ha b rfl

/-! ### Claim theorems: session operations -/

/-- C1.  The digit-entry handler is not a no-op when no cell is
selected: with the out-of-range selection sentinel (`Clicked(90)`, the
fresh-session state) the source evaluates
`sudoku.read().0[clicked as usize]` on an `[u8; 81]`, an out-of-bounds
access, so the click panics (modelled by the `none` result) instead of
being rejected quietly. -/
theorem C1_enter_digit_unselected_panics :
    numberClick (startState g0) 5 = none := by rfl

/-- C4 counterexample.  The history `[g0, g1, g0]` is non-empty, starts
at the initial puzzle and its consecutive entries differ in exactly one
cell, and it has more than one entry — yet undo does not pop it: the
source's guard compares the last entry with the initial puzzle, and
here they coincide, so the click is a no-op. -/
theorem C4_counterexample :
    stC4.moves = [g0, g1, g1.set 5 0] ∧
    stC4.moves.length = 3 ∧
    stC4.moves.head? = some stC4.initial ∧
    ((List.range 81).filter
      (fun i => g0.getD i 0 ≠ g1.getD i 0)).length = 1 ∧
    ((List.range 81).filter
      (fun i => g1.getD i 0 ≠ (g1.set 5 0).getD i 0)).length = 1 ∧
    undoClick stC4 = some stC4 := by decide

/-- C4 (amended).  For every history that is non-empty, starts at the
initial puzzle, holds 81-cell grids and has pairwise-distinct
consecutive entries: undo is a no-op exactly when the last entry equals
the initial puzzle (in particular when the history has exactly one
entry); otherwise it pops the last entry and reveals the new last
entry; the initial snapshot is never removed. -/
theorem C4_undo_amended (s : GameState)
    (hne : s.moves ≠ [])
    (hfirst : s.moves.head? = some s.initial)
    (hlen : ∀ g ∈ s.moves, g.length = 81)
    (hchain : List.Chain' (fun a b => a ≠ b) s.moves) :
    (s.moves.getLast? = some s.initial → undoClick s = some s) ∧
    (∀ last, s.moves.getLast? = some last → last ≠ s.initial →
      ∃ s', undoClick s = some s' ∧
        s'.moves = s.moves.dropLast ∧
        s'.moves.getLast? = some s'.sudoku ∧
        s'.moves ≠ [] ∧
        s'.moves.head? = some s.initial) := by
  constructor
  · intro hlast
    unfold undoClick
    rw [hlast]
    dsimp only
    rw [if_pos rfl]
  · intro last hlast hlastne
    have h2 : 2 ≤ s.moves.length := by
      by_contra hcon
      have h1 : s.moves.length = 1 := by
        have hpos := List.length_pos.mpr hne
        omega
      obtain ⟨a, ha⟩ := List.length_eq_one.mp h1
      rw [ha] at hfirst hlast
      simp only [List.head?_cons, Option.some_inj] at hfirst
      simp only [List.getLast?_singleton, Option.some_inj] at hlast
      exact hlastne (hlast.symm.trans hfirst)
    have hdne : s.moves.dropLast ≠ [] := by
      intro hnil
      have hlt := List.length_dropLast s.moves
      rw [hnil] at hlt
      simp only [List.length_nil] at hlt
      omega
    obtain ⟨prev, hprev⟩ :=
      Option.isSome_iff_exists.mp (List.getLast?_isSome.mpr hdne)
    have hneq : last ≠ prev := by
      intro heq
      exact (chain_rel_last_two hchain hprev hlast) heq.symm
    have hlast81 : last.length = 81 :=
      hlen last (List.mem_of_mem_getLast? (by exact hlast))
    have hprev81 : prev.length = 81 :=
      hlen prev (List.Sublist.mem
        (List.mem_of_mem_getLast? (by exact hprev))
        (List.dropLast_sublist s.moves))
    have hfc : find_changed_cell last prev ≠ none := by
      intro hnone
      exact hneq
        ((@find_changed_cell_none_iff last prev (by omega)).mp hnone)
    obtain ⟨i, hi⟩ := Option.ne_none_iff_exists'.mp hfc
    refine ⟨{ s with
              moves := s.moves.dropLast,
              sudoku := prev,
              clicked := i,
              related := get_related_cells i,
              conflicting := get_all_conflicting_cells prev },
            ?_, rfl, ?_, hdne, ?_⟩
    · unfold undoClick
      rw [hlast]
      dsimp only
      rw [if_neg hlastne, hprev]
      dsimp only
      rw [hi]
    · exact hprev
    · rw [head?_dropLast_of_two_le h2]
      exact hfirst

theorem C4_witness :
    ((stC5.moves.getLast? = some stC5.initial → undoClick stC5 = some stC5) ∧
     (∀ last, stC5.moves.getLast? = some last → last ≠ stC5.initial →
       ∃ s', undoClick stC5 = some s' ∧
         s'.moves = stC5.moves.dropLast ∧
         s'.moves.getLast? = some s'.sudoku ∧
         s'.moves ≠ [] ∧
         s'.moves.head? = some stC5.initial)) :=
  C4_undo_amended stC5 (by decide) (by decide) (by decide)
    (by
      rw [show stC5.moves = [g0, g1] from rfl, List.chain'_cons]
      exact ⟨by decide, List.chain'_singleton g1⟩)

/-- C5 counterexample.  From the state with history `[g0, g1]`, writing
0 into cell 5 produces a grid differing from `g1` in exactly one cell,
but it equals the initial puzzle, so the following undo is a no-op and
the history stays `[g0, g1, g0]` instead of being restored to
`[g0, g1]`. -/
theorem C5_counterexample :
    ((List.range 81).filter
        (fun i => (g1.set 5 0).getD i 0 ≠ g1.getD i 0)).length = 1 ∧
    numberClick stC5 0 = some stC4 ∧
    undoClick stC4 = some stC4 ∧
    stC4.moves ≠ stC5.moves := by decide

/-- C5 (amended).  Undo is the left inverse of a digit-entry commit:
if the selected cell is free, in range, and the entered value differs
from the current one, and the newly written grid does not equal the
initial puzzle, then entering the digit and undoing restores the
history and the current grid. -/
theorem C5_commit_undo_amended (s : GameState) (n : Nat)
    (hsync : s.moves.getLast? = some s.sudoku)
    (hlen : s.sudoku.length = 81)
    (hcl : s.clicked < 81)
    (hmut : s.mutFlag = true)
    (hvne : s.sudoku.getD s.clicked 0 ≠ n)
    (hnotinit : s.sudoku.set s.clicked n ≠ s.initial) :
    ∃ s1 s2, numberClick s n = some s1 ∧ undoClick s1 = some s2 ∧
      s2.moves = s.moves ∧ s2.sudoku = s.sudoku := by
  have hget : s.sudoku.get? s.clicked = some (s.sudoku.getD s.clicked 0) := by
    rw [List.get?_eq_getElem?, List.getElem?_eq_getElem (by omega)]
    rw [List.getD_eq_getElem?_getD, List.getElem?_eq_getElem (by omega)]
    rfl
  refine ⟨{ s with
            sudoku := s.sudoku.set s.clicked n,
            moves := s.moves ++ [s.sudoku.set s.clicked n],
            conflicting :=
              get_all_conflicting_cells (s.sudoku.set s.clicked n) },
          { s with
            moves := s.moves,
            sudoku := s.sudoku,
            clicked := s.clicked,
            related := get_related_cells s.clicked,
            conflicting := get_all_conflicting_cells s.sudoku },
          ?_, ?_, rfl, rfl⟩
  · unfold numberClick
    rw [hget]
    dsimp only
    rw [if_neg hvne, hmut, if_pos rfl]
  · unfold undoClick
    rw [List.getLast?_concat]
    dsimp only
    rw [if_neg hnotinit, List.dropLast_concat, hsync]
    dsimp only
    rw [find_changed_cell_set (by omega) hvne]

theorem C5_witness :
    ∃ s1 s2, numberClick stC5 7 = some s1 ∧ undoClick s1 = some s2 ∧
      s2.moves = stC5.moves ∧ s2.sudoku = stC5.sudoku :=
  C5_commit_undo_amended stC5 7 (by decide) (by decide) (by decide)
    (by decide) (by decide) (by decide)


/-! ### Helper lemmas for the history invariant -/

theorem remove_conflicting_length (cells : List Nat) (g : SudokuState) :
    (remove_conflicting_cells g cells).length = g.length := by
  induction cells generalizing g with
  | nil => rfl
  | cons c rest ih =>
    show (remove_conflicting_cells (g.set c 0) rest).length = g.length
    rw [ih, List.length_set]

theorem remove_conflicting_getD_not_mem {cells : List Nat} {j : Nat}
    (g : SudokuState) (hj : j ∉ cells) :
    (remove_conflicting_cells g cells).getD j 0 = g.getD j 0 := by
  induction cells generalizing g with
  | nil => rfl
  | cons c rest ih =>
    have hjc : j ≠ c := fun he => hj (he ▸ List.mem_cons_self c rest)
    have hjr : j ∉ rest := fun he => hj (List.mem_cons_of_mem c he)
    show (remove_conflicting_cells (g.set c 0) rest).getD j 0 = g.getD j 0
    rw [ih (g.set c 0) hjr, List.getD_eq_getElem?_getD,
      List.getElem?_set_ne (fun he => hjc he.symm),
      ← List.getD_eq_getElem?_getD]

theorem remove_conflicting_getD_mem {cells : List Nat} {j : Nat}
    (g : SudokuState) (hj : j ∈ cells) (hlt : j < g.length) :
    (remove_conflicting_cells g cells).getD j 0 = 0 := by
  induction cells generalizing g with
  | nil => simp at hj
  | cons c rest ih =>
    show (remove_conflicting_cells (g.set c 0) rest).getD j 0 = 0
    by_cases hr : j ∈ rest
    · exact ih (g.set c 0) hr (by rw [List.length_set]; exact hlt)
    · have hjc : j = c := by
        rcases List.mem_cons.mp hj with he | he
        · exact he
        · exact absurd he hr
      subst hjc
      rw [remove_conflicting_getD_not_mem (g.set j 0) hr,
        List.getD_eq_getElem?_getD, List.getElem?_set_self hlt]
      rfl

theorem set_ne_of_getD_ne {l : List Nat} {i x : Nat}
    (hi : i < l.length) (hne : l.getD i 0 ≠ x) :
    l.set i x ≠ l := by
  intro he
  have hx : (l.set i x).getD i 0 = x := by
    rw [List.getD_eq_getElem?_getD, List.getElem?_set_self hi]
    rfl
  rw [he] at hx
  exact hne hx

theorem get_hint_ok_length {solve : SudokuState → Option SudokuState}
    {g ns : SudokuState} (h : get_hint solve g = .ok ns) :
    ns.length = g.length := by
  unfold get_hint at h
  cases hf : (List.range g.length).find? (fun i => g.getD i 0 = 0) with
  | none =>
    rw [hf] at h
    simp only [Except.ok.injEq] at h
    rw [← h]
  | some i =>
    rw [hf] at h
    dsimp only at h
    cases hsol : solve g with
    | none => rw [hsol] at h; cases h
    | some sol =>
      rw [hsol] at h
      simp only [Except.ok.injEq] at h
      rw [← h, List.length_set]

theorem two_le_length_of_ends_ne {α : Type} {l : List α} {a b : α}
    (ha : l.head? = some a) (hb : l.getLast? = some b) (hne : b ≠ a) :
    2 ≤ l.length := by
  rcases l with - | ⟨x, - | ⟨y, t⟩⟩
  · simp at ha
  · simp only [List.head?_cons, Option.some_inj] at ha
    rw [List.getLast?_singleton, Option.some_inj] at hb
    exact absurd (hb.symm.trans ha) hne
  · simp only [List.length_cons]
    omega

theorem head?_concat_of_ne_nil {α : Type} {l : List α} (x : α) (h : l ≠ []) :
    (l ++ [x]).head? = l.head? := by
  rcases l with - | ⟨y, t⟩
  · exact absurd rfl h
  · rfl

/-! ### Preservation of the history invariant by every session operation -/

theorem historyInv_push {s s' : GameState} (h : HistoryInv s)
    (hmoves : s'.moves = s.moves ++ [s'.sudoku])
    (hinit : s'.initial = s.initial)
    (hne : s'.sudoku ≠ s.sudoku)
    (hlen : s'.sudoku.length = 81)
    (hcf : s'.conflicting ≠ [] →
      s'.conflicting = get_all_conflicting_cells s'.sudoku) :
    HistoryInv s' := by
  refine ⟨?_, ?_, ?_, ?_, ?_, hcf⟩
  · rw [hmoves]
    exact List.append_ne_nil_of_left_ne_nil h.nonempty _
  · rw [hmoves, hinit, head?_concat_of_ne_nil _ h.nonempty]
    exact h.head_initial
  · rw [hmoves]
    exact List.getLast?_concat _
  · rw [hmoves]
    intro g hg
    rcases List.mem_append.mp hg with hg | hg
    · exact h.lengths g hg
    · rw [List.mem_singleton.mp hg]
      exact hlen
  · rw [hmoves, List.chain'_append]
    refine ⟨h.distinct, List.chain'_singleton _, ?_⟩
    intro x hx y hy
    rw [h.last_sudoku, Option.mem_def, Option.some_inj] at hx
    rw [List.head?_cons, Option.mem_def, Option.some_inj] at hy
    rw [← hx, ← hy]
    exact fun he => hne he.symm

theorem historyInv_startState (npz : SudokuState) (hl : npz.length = 81) :
    HistoryInv (startState npz) := by
  refine ⟨?_, rfl, rfl, ?_, List.chain'_singleton _, ?_⟩
  · simp [startState]
  · intro g hg
    rw [List.mem_singleton.mp hg]
    exact hl
  · intro hc
    exact absurd rfl hc

theorem historyInv_selectCell {s : GameState} (i : Nat) (h : HistoryInv s) :
    HistoryInv (selectCell s i) :=
  ⟨h.nonempty, h.head_initial, h.last_sudoku, h.lengths, h.distinct,
    h.conflictSync⟩

theorem historyInv_newClick (s : GameState) (npz : SudokuState)
    (hl : npz.length = 81) : HistoryInv (newClick s npz) := by
  refine ⟨?_, rfl, rfl, ?_, List.chain'_singleton _, ?_⟩
  · simp [newClick]
  · intro g hg
    rw [List.mem_singleton.mp hg]
    exact hl
  · intro hc
    exact absurd rfl hc

theorem historyInv_numberClick {s s' : GameState} {n : Nat}
    (h : HistoryInv s) (hs : numberClick s n = some s') : HistoryInv s' := by
  unfold numberClick at hs
  cases hget : s.sudoku.get? s.clicked with
  | none => rw [hget] at hs; cases hs
  | some v =>
    rw [hget] at hs
    dsimp only at hs
    by_cases hv : v = n
    · rw [if_pos hv] at hs
      obtain rfl := Option.some_inj.mp hs
      exact h
    · rw [if_neg hv] at hs
      by_cases hm : s.mutFlag = true
      · rw [if_pos hm] at hs
        obtain rfl := Option.some_inj.mp hs
        have hcl : s.clicked < s.sudoku.length := by
          by_contra hcon
          rw [List.get?_eq_getElem?, List.getElem?_eq_none (by omega)]
            at hget
          cases hget
        have hv' : s.sudoku.getD s.clicked 0 = v := by
          rw [List.getD_eq_getElem?_getD, ← List.get?_eq_getElem?, hget]
          rfl
        have hlen81 : s.sudoku.length = 81 :=
          h.lengths s.sudoku
            (List.mem_of_mem_getLast? (by exact h.last_sudoku))
        refine historyInv_push h rfl rfl ?_ ?_ ?_
        · exact set_ne_of_getD_ne hcl (by rw [hv']; exact hv)
        · rw [List.length_set]
          exact hlen81
        · intro _
          rfl
      · rw [if_neg hm] at hs
        obtain rfl := Option.some_inj.mp hs
        exact h

theorem historyInv_undoClick {s s' : GameState}
    (h : HistoryInv s) (hs : undoClick s = some s') : HistoryInv s' := by
  unfold undoClick at hs
  cases hlast : s.moves.getLast? with
  | none => rw [hlast] at hs; cases hs
  | some current =>
    rw [hlast] at hs
    dsimp only at hs
    by_cases hci : current = s.initial
    · rw [if_pos hci] at hs
      obtain rfl := Option.some_inj.mp hs
      exact h
    · rw [if_neg hci] at hs
      cases hprev : s.moves.dropLast.getLast? with
      | none => rw [hprev] at hs; cases hs
      | some prev =>
        rw [hprev] at hs
        dsimp only at hs
        cases hfc : find_changed_cell current prev with
        | none => rw [hfc] at hs; cases hs
        | some i =>
          rw [hfc] at hs
          obtain rfl := Option.some_inj.mp hs
          have h2 : 2 ≤ s.moves.length :=
            two_le_length_of_ends_ne h.head_initial hlast hci
          have hdne : s.moves.dropLast ≠ [] := by
            intro hnil
            rw [hnil] at hprev
            cases hprev
          refine ⟨hdne, ?_, hprev, ?_, ?_, ?_⟩
          · show s.moves.dropLast.head? = some s.initial
            rw [head?_dropLast_of_two_le h2]
            exact h.head_initial
          · intro g hg
            exact h.lengths g
              (List.Sublist.mem hg (List.dropLast_sublist _))
          · exact List.Chain'.prefix h.distinct (List.dropLast_prefix _)
          · intro _
            rfl

theorem historyInv_hintCleanup {s : GameState} (h : HistoryInv s) :
    HistoryInv (hintCleanup s s.sudoku) := by
  unfold hintCleanup
  by_cases hc : s.conflicting = []
  · rw [if_neg (by rw [hc]; exact fun hh => hh rfl)]
    exact h
  · rw [if_pos hc]
    have hsync := h.conflictSync hc
    have hne_all : get_all_conflicting_cells s.sudoku ≠ [] := by
      rw [← hsync]
      exact hc
    obtain ⟨j, hj⟩ := List.exists_mem_of_ne_nil _ hne_all
    obtain ⟨c, ⟨hclt, hcnz⟩, hjc⟩ := mem_get_all_conflicting_cells.mp hj
    have hmem' := mem_get_conflicting_cells.mp hjc
    have hlen81 : s.sudoku.length = 81 :=
      h.lengths _ (List.mem_of_mem_getLast? (by exact h.last_sudoku))
    have hjlt : j < s.sudoku.length := by
      rw [hlen81]
      exact related_lt c (by omega) j hmem'.2.1
    have hjnz : s.sudoku.getD j 0 ≠ 0 := by
      rw [hmem'.2.2]
      exact hmem'.1
    have hcur_ne : remove_conflicting_cells s.sudoku
        (get_all_conflicting_cells s.sudoku) ≠ s.sudoku := by
      intro he
      apply hjnz
      rw [← he]
      exact remove_conflicting_getD_mem _ hj hjlt
    refine historyInv_push h rfl rfl hcur_ne ?_ ?_
    · rw [remove_conflicting_length]
      exact hlen81
    · intro hcc
      exact absurd rfl hcc

theorem historyInv_hintAdopt {s1 s' : GameState} {ns : SudokuState}
    (h : HistoryInv s1) (hlen : ns.length = 81)
    (hs : (if s1.sudoku.any (fun v => v = 0) then
        match find_changed_cell s1.sudoku ns with
        | none => none
        | some lastClicked =>
          some { s1 with
            sudoku := ns,
            moves := s1.moves ++ [ns],
            clicked := lastClicked,
            related := get_related_cells lastClicked,
            conflicting := get_all_conflicting_cells ns }
      else some s1) = some s') :
    HistoryInv s' := by
  by_cases hany : s1.sudoku.any (fun v => v = 0) = true
  · rw [if_pos hany] at hs
    cases hfc : find_changed_cell s1.sudoku ns with
    | none => rw [hfc] at hs; cases hs
    | some i =>
      rw [hfc] at hs
      obtain rfl := Option.some_inj.mp hs
      have hne : ns ≠ s1.sudoku := by
        intro he
        rw [he,
          (@find_changed_cell_none_iff s1.sudoku s1.sudoku rfl).mpr rfl]
          at hfc
        cases hfc
      refine historyInv_push h rfl rfl hne hlen ?_
      intro _
      rfl
  · rw [if_neg hany] at hs
    obtain rfl := Option.some_inj.mp hs
    exact h

theorem historyInv_hintApply {solve : SudokuState → Option SudokuState}
    {s1 s' : GameState} (h : HistoryInv s1)
    (hs : hintApply solve s1 = some s') : HistoryInv s' := by
  unfold hintApply at hs
  have hlen81 : s1.sudoku.length = 81 :=
    h.lengths _ (List.mem_of_mem_getLast? (by exact h.last_sudoku))
  cases hg1 : get_hint solve s1.sudoku with
  | ok ns =>
    rw [hg1] at hs
    dsimp only at hs
    exact historyInv_hintAdopt h
      (by rw [get_hint_ok_length hg1]; exact hlen81) hs
  | error e =>
    rw [hg1] at hs
    dsimp only at hs
    cases hg2 : get_hint solve (remove_conflicting_cells s1.sudoku
        (get_all_conflicting_cells s1.sudoku)) with
    | ok ns =>
      rw [hg2] at hs
      dsimp only at hs
      exact historyInv_hintAdopt h
        (by rw [get_hint_ok_length hg2, remove_conflicting_length]
            exact hlen81) hs
    | error e2 =>
      rw [hg2] at hs
      cases hs

theorem historyInv_hintClick {solve : SudokuState → Option SudokuState}
    {s s' : GameState} (h : HistoryInv s)
    (hs : hintClick solve s = some s') : HistoryInv s' := by
  unfold hintClick at hs
  cases hlast : s.moves.getLast? with
  | none => rw [hlast] at hs; cases hs
  | some current =>
    rw [hlast] at hs
    dsimp only at hs
    have hcur : current = s.sudoku := by
      rw [h.last_sudoku] at hlast
      exact (Option.some_inj.mp hlast).symm
    subst hcur
    exact historyInv_hintApply (historyInv_hintCleanup h) hs

theorem reachable_historyInv {solve : SudokuState → Option SudokuState}
    {s : GameState} (h : Reachable solve s) : HistoryInv s := by
  induction h with
  | start npz hl => exact historyInv_startState npz hl
  | select s i hi hr ih => exact historyInv_selectCell i ih
  | enter s n s' hr heq ih => exact historyInv_numberClick ih heq
  | undo s s' hr heq ih => exact historyInv_undoClick ih heq
  | hint s s' hr heq ih => exact historyInv_hintClick ih heq
  | new s npz hl hr ih => exact historyInv_newClick s npz hl

/-! ### Claim theorems: history invariant and hint -/

/-- C6 counterexample.  A reachable session state (select cell 0, enter
1, select cell 1, enter 1, hint) whose history holds a consecutive pair
of entries differing in two cell indices: the hint's conflict cleanup
freed cells 0 and 1 in a single history entry. -/
theorem C6_counterexample :
    Reachable solveConst stC6 ∧
    ((List.range 81).filter
      (fun i => (stC6.moves.getD 2 []).getD i 0 ≠
        (stC6.moves.getD 3 []).getD i 0)).length = 2 := by
  constructor
  · refine Reachable.hint stEnt2 stC6 ?_ (by decide)
    refine Reachable.enter stSel1 1 stEnt2 ?_ (by decide)
    refine Reachable.select stEnt1 1 (by decide) ?_
    refine Reachable.enter stSel0 1 stEnt1 ?_ (by decide)
    exact Reachable.select (startState g0) 0 (by decide)
      (Reachable.start g0 (by decide))
  · decide

/-- C6 (amended).  Every reachable session state (after any sequence of
cell selections, digit entries, undos, hints and new games) has a
non-empty history whose first entry is the session's initial puzzle and
whose consecutive entries are pairwise distinct (each entry after the
first differs from its predecessor in at least one cell). -/
theorem C6_history_invariant_amended
    (solve : SudokuState → Option SudokuState)
    (s : GameState) (h : Reachable solve s) :
    s.moves ≠ [] ∧ s.moves.head? = some s.initial ∧
    List.Chain' (fun a b => a ≠ b) s.moves :=
  ⟨(reachable_historyInv h).nonempty,
    (reachable_historyInv h).head_initial,
    (reachable_historyInv h).distinct⟩

theorem C6_witness :
    (startState g0).moves ≠ [] ∧
    (startState g0).moves.head? = some (startState g0).initial ∧
    List.Chain' (fun a b => a ≠ b) (startState g0).moves :=
  C6_history_invariant_amended solveConst (startState g0)
    (Reachable.start g0 (by decide))

/-- C9 counterexample.  `stC9` holds a complete grid (no zero cells)
that contains conflicts; the hint click does not leave it unchanged:
the conflict cleanup frees the conflicting cells and the hint then
fills one of them. -/
theorem C9_counterexample :
    stC9.sudoku.all (fun v => v ≠ 0) = true ∧
    stC9.conflicting = get_all_conflicting_cells stC9.sudoku ∧
    stC9.moves.getLast? = some stC9.sudoku ∧
    (hintClick solveConst stC9).map GameState.sudoku ≠ some stC9.sudoku := by
  decide

/-- C9 (amended).  On a session whose grid is complete (no zero cells)
and whose conflict set is empty, a hint click leaves the whole session
state — in particular the grid — unchanged, for every solver. -/
theorem C9_hint_noop_amended (solve : SudokuState → Option SudokuState)
    (s : GameState)
    (hm : s.moves ≠ [])
    (hc : s.conflicting = [])
    (hz : ∀ v ∈ s.sudoku, v ≠ 0) :
    hintClick solve s = some s := by
  obtain ⟨cur, hcur⟩ := Option.isSome_iff_exists.mp
    (List.getLast?_isSome.mpr hm)
  have hfind : (List.range s.sudoku.length).find?
      (fun i => s.sudoku.getD i 0 = 0) = none := by
    rw [List.find?_eq_none]
    intro i hi
    simp only [List.mem_range] at hi
    simp only [decide_eq_true_eq]
    intro h0
    refine hz (s.sudoku.getD i 0) ?_ h0
    rw [List.getD_eq_getElem?_getD, List.getElem?_eq_getElem hi]
    exact List.getElem_mem hi
  have hany : s.sudoku.any (fun v => v = 0) = false := by
    rw [List.any_eq_false]
    intro v hv
    simp only [decide_eq_true_eq]
    exact hz v hv
  unfold hintClick
  rw [hcur]
  dsimp only
  rw [show hintCleanup s cur = s from by
    unfold hintCleanup
    rw [if_neg (by rw [hc]; exact fun h => h rfl)]]
  unfold hintApply get_hint
  rw [hfind]
  dsimp only
  rw [hany]
  rw [if_neg (by decide)]

theorem C9_witness :
    hintClick solveConst stC9ok = some stC9ok :=
  C9_hint_noop_amended solveConst stC9ok (by decide) rfl (by decide)

end Sudoku
